import Mathlib

/-!
Verification of the IAM-binding reconciliation core
(`google/resource_iam_binding.go`): the binding merge engine, the
read-modify-write orchestrator and the four lifecycle operations of the
binding resource controller, embedded shallowly over lists and strings.
-/

set_option autoImplicit false

namespace IamBinding

/-- `cloudresourcemanager.Binding`: a role plus its member principals.
Members come from the declared set's list projection, so we keep them as a
list of strings. -/
structure Binding where
  role : String
  members : List String
  deriving DecidableEq, Repr

/-- `cloudresourcemanager.Policy`: an etag (compare-and-swap token) and an
ordered sequence of bindings. -/
structure Policy where
  etag : String
  bindings : List Binding
  deriving DecidableEq, Repr

/-- The members attached to role `r` across all entries of a binding list:
the union, in sequence order, of the member lists of every entry whose role
equals `r` (exact string equality, as in the Go scans). -/
def bindingMembers (bs : List Binding) (r : String) : List String :=
  (bs.filter (fun b => b.role == r)).flatMap Binding.members

/-- Modelled from the spec: `mergeBindings` is called from
`resourceIamBindingCreate` but defined elsewhere in the repository (not in
this fragment).  Per the spec it takes a sequence that may contain
duplicate roles and produces a sequence in which each role appears exactly
once, its member set the deduplicated union of the members across all
entries sharing that role, with no ordering requirement beyond uniqueness. -/
def mergeBindings (bs : List Binding) : List Binding :=
  ((bs.map Binding.role).dedup).map (fun r => ⟨r, (bindingMembers bs r).dedup⟩)

/-- The create mutation passed to the orchestrator
(`resource_iam_binding.go` lines 48-55): append the declared binding and
merge. -/
def createMutation (p : Binding) (ep : Policy) : Policy :=
  { ep with bindings := mergeBindings (ep.bindings ++ [p]) }

/-- The create mutation as the `func(*Policy) error` closure: it always
returns nil (`Except.ok`). -/
def createMutationFn (p : Binding) (ep : Policy) : Except String Policy :=
  Except.ok (createMutation p ep)

/-- The scan of `resourceIamBindingUpdate` (lines 109-120): replace the
first entry whose role matches, in place; if none matches, append. -/
def updateBindings (binding : Binding) : List Binding → List Binding
  | [] => [binding]
  | b :: bs =>
    if b.role == binding.role then binding :: bs
    else b :: updateBindings binding bs

/-- The update mutation passed to the orchestrator (lines 108-122). -/
def updateMutation (binding : Binding) (p : Policy) : Policy :=
  { p with bindings := updateBindings binding p.bindings }

/-- The update mutation as the `func(*Policy) error` closure: it always
returns nil (`Except.ok`). -/
def updateMutationFn (binding : Binding) (p : Policy) : Except String Policy :=
  Except.ok (updateMutation binding p)

/-- The scan of `resourceIamBindingDelete` (lines 141-154): remove the
first entry whose role matches; if none matches, leave the list unchanged. -/
def deleteBindings (r : String) : List Binding → List Binding
  | [] => []
  | b :: bs => if b.role == r then bs else b :: deleteBindings r bs

/-- The delete mutation passed to the orchestrator (lines 140-156). -/
def deleteMutation (binding : Binding) (p : Policy) : Policy :=
  { p with bindings := deleteBindings binding.role p.bindings }

/-- The delete mutation as the `func(*Policy) error` closure: it always
returns nil (`Except.ok`), also in the absent-role (no-op) branch. -/
def deleteMutationFn (binding : Binding) (p : Policy) : Except String Policy :=
  Except.ok (deleteMutation binding p)

/-- The controller's view of `schema.ResourceData`: the declared inputs
(`role`, `members`), the computed `etag` output, and the identity string
(`d.Id`). -/
structure ResourceData where
  role : String
  members : List String
  etag : String
  id : String
  deriving DecidableEq, Repr

/-- `getResourceIamBinding` (lines 165-171): build the declared binding
from the declared state (`convertStringArr` is the identity in this typed
model). -/
def getResourceIamBinding (d : ResourceData) : Binding :=
  ⟨d.role, d.members⟩

/-- One call made to the policy updater collaborator. -/
inductive UpdaterCall where
  | fetch : UpdaterCall
  | commit : Policy → UpdaterCall
  deriving DecidableEq, Repr

/-- Whether a recorded updater call is a fetch of the policy. -/
def UpdaterCall.isFetch : UpdaterCall → Bool
  | .fetch => true
  | .commit _ => false

/-- Whether a recorded updater call is a commit of the policy. -/
def UpdaterCall.isCommit : UpdaterCall → Bool
  | .fetch => false
  | .commit _ => true

/-- The policy updater collaborator (`ResourceIamUpdater`), pluggable and
possibly stateful: fetching may consult and advance a state `σ`, committing
may fail and advances the state. -/
structure Updater (σ : Type) where
  fetchPolicy : σ → Except String Policy × σ
  commitPolicy : σ → Policy → Option String × σ
  resourceId : String

/-- Modelled from the spec: `iamPolicyReadModifyWrite` is called from the
controller but defined elsewhere in the repository (not in this fragment).
Per the spec it executes fetch, mutate, commit exactly once per invocation:
a fetch error is propagated immediately; a mutation error is propagated
immediately without committing; otherwise the mutated policy (which carries
the etag the mutation left in it, i.e. the fetched one for mutations that
do not touch it) is committed and any commit error propagated.  The
returned trace records the collaborator calls in order. -/
def iamPolicyReadModifyWrite {σ : Type} (u : Updater σ)
    (modify : Policy → Except String Policy) (s : σ) :
    Option String × σ × List UpdaterCall :=
  match u.fetchPolicy s with
  | (Except.error e, s1) => (some e, s1, [UpdaterCall.fetch])
  | (Except.ok p, s1) =>
    match modify p with
    | Except.error e => (some e, s1, [UpdaterCall.fetch])
    | Except.ok p1 =>
      match u.commitPolicy s1 p1 with
      | (res, s2) => (res, s2, [UpdaterCall.fetch, UpdaterCall.commit p1])

/-- `resourceIamBindingRead` (lines 64-97): fetch the policy, locate the
first binding whose role equals the declared role; if absent, clear the
identity and succeed; if present, project etag, members and role into the
observed state. -/
def resourceIamBindingRead {σ : Type} (u : Updater σ) (d : ResourceData)
    (s : σ) : Except String ResourceData × σ × List UpdaterCall :=
  let eBinding := getResourceIamBinding d
  match u.fetchPolicy s with
  | (Except.error e, s1) => (Except.error e, s1, [UpdaterCall.fetch])
  | (Except.ok p, s1) =>
    match p.bindings.find? (fun b => b.role == eBinding.role) with
    | none => (Except.ok { d with id := "" }, s1, [UpdaterCall.fetch])
    | some b =>
      (Except.ok { d with etag := p.etag, members := b.members, role := b.role },
        s1, [UpdaterCall.fetch])

/-- `resourceIamBindingCreate` (lines 39-62): run the read-modify-write
cycle with the create mutation; on success set the identity to
`resourceId ++ "/" ++ role` and re-run read. -/
def resourceIamBindingCreate {σ : Type} (u : Updater σ) (d : ResourceData)
    (s : σ) : Except String ResourceData × σ × List UpdaterCall :=
  let p := getResourceIamBinding d
  match iamPolicyReadModifyWrite u (createMutationFn p) s with
  | (some e, s1, tr) => (Except.error e, s1, tr)
  | (none, s1, tr) =>
    let d1 := { d with id := u.resourceId ++ "/" ++ p.role }
    match resourceIamBindingRead u d1 s1 with
    | (res, s2, tr2) => (res, s2, tr ++ tr2)

/-- `resourceIamBindingUpdate` (lines 99-129): run the read-modify-write
cycle with the update mutation; on success re-run read. -/
def resourceIamBindingUpdate {σ : Type} (u : Updater σ) (d : ResourceData)
    (s : σ) : Except String ResourceData × σ × List UpdaterCall :=
  let binding := getResourceIamBinding d
  match iamPolicyReadModifyWrite u (updateMutationFn binding) s with
  | (some e, s1, tr) => (Except.error e, s1, tr)
  | (none, s1, tr) =>
    match resourceIamBindingRead u d s1 with
    | (res, s2, tr2) => (res, s2, tr ++ tr2)

/-- `resourceIamBindingDelete` (lines 131-163): run the read-modify-write
cycle with the delete mutation; on success re-run read. -/
def resourceIamBindingDelete {σ : Type} (u : Updater σ) (d : ResourceData)
    (s : σ) : Except String ResourceData × σ × List UpdaterCall :=
  let binding := getResourceIamBinding d
  match iamPolicyReadModifyWrite u (deleteMutationFn binding) s with
  | (some e, s1, tr) => (Except.error e, s1, tr)
  | (none, s1, tr) =>
    match resourceIamBindingRead u d s1 with
    | (res, s2, tr2) => (res, s2, tr ++ tr2)

/-- A faithful remote authority for concrete runs: its state is the current
policy, fetch returns it, commit replaces it and always succeeds. -/
def remoteUpdater (rid : String) : Updater Policy :=
  { fetchPolicy := fun s => (Except.ok s, s)
    commitPolicy := fun _ p => (none, p)
    resourceId := rid }

/-- Each role appears in at most one binding entry. -/
def rolesNodup (bs : List Binding) : Prop :=
  (bs.map Binding.role).Nodup

theorem bindingMembers_append (as bs : List Binding) (r : String) :
    bindingMembers (as ++ bs) r = bindingMembers as r ++ bindingMembers bs r := by
  simp [bindingMembers, List.filter_append]

theorem bindingMembers_cons (x : Binding) (bs : List Binding) (r : String) :
    bindingMembers (x :: bs) r
      = (if x.role == r then x.members else []) ++ bindingMembers bs r := by
  by_cases h : x.role == r <;> simp [bindingMembers, List.filter_cons, h]

theorem bindingMembers_singleton (p : Binding) : bindingMembers [p] p.role = p.members := by
  simp [bindingMembers]

theorem mem_bindingMembers {bs : List Binding} {r m : String} :
    m ∈ bindingMembers bs r ↔ ∃ b ∈ bs, b.role = r ∧ m ∈ b.members := by
  simp [bindingMembers, List.mem_flatMap, List.mem_filter, and_assoc]

theorem bindingMembers_eq_nil {bs : List Binding} {r : String}
    (h : ∀ b ∈ bs, b.role ≠ r) : bindingMembers bs r = [] := by
  have hf : bs.filter (fun b => b.role == r) = [] :=
    List.filter_eq_nil_iff.mpr (by intro a ha; simpa using h a ha)
  simp [bindingMembers, hf]

theorem mem_bindingMembers_mergeBindings {bs : List Binding} {r m : String} :
    m ∈ bindingMembers (mergeBindings bs) r ↔ m ∈ bindingMembers bs r := by
  constructor
  · intro h
    rcases mem_bindingMembers.mp h with ⟨b, hb, hrole, hm⟩
    rcases List.mem_map.mp hb with ⟨r1, _hr1, rfl⟩
    have hr : r1 = r := hrole
    subst hr
    exact (List.mem_dedup.mp hm)
  · intro h
    have hrole : r ∈ bs.map Binding.role := by
      rcases mem_bindingMembers.mp h with ⟨b, hb, hrole, _⟩
      exact List.mem_map.mpr ⟨b, hb, hrole⟩
    refine mem_bindingMembers.mpr ⟨⟨r, (bindingMembers bs r).dedup⟩, ?_, rfl, ?_⟩
    · exact List.mem_map.mpr ⟨r, List.mem_dedup.mpr hrole, rfl⟩
    · exact List.mem_dedup.mpr h

theorem mergeBindings_roles (bs : List Binding) :
    (mergeBindings bs).map Binding.role = (bs.map Binding.role).dedup := by
  rw [mergeBindings, List.map_map]
  have hid : (Binding.role ∘ fun r => (⟨r, (bindingMembers bs r).dedup⟩ : Binding)) = id := rfl
  rw [hid, List.map_id]

theorem updateBindings_of_not_found {b : Binding} : ∀ {bs : List Binding},
    (∀ y ∈ bs, y.role ≠ b.role) → updateBindings b bs = bs ++ [b]
  | [], _ => rfl
  | x :: bs, h => by
    have hx : (x.role == b.role) = false := by
      simpa using h x (List.mem_cons_self x bs)
    simp [updateBindings, hx, updateBindings_of_not_found (fun y hy => h y (List.mem_cons_of_mem x hy))]

theorem updateBindings_replace_first {b x : Binding} (hx : x.role = b.role) :
    ∀ (pre post : List Binding), (∀ y ∈ pre, y.role ≠ b.role) →
      updateBindings b (pre ++ x :: post) = pre ++ b :: post
  | [], post, _ => by simp [updateBindings, hx]
  | y :: pre, post, h => by
    have hy : (y.role == b.role) = false := by
      simpa using h y (List.mem_cons_self y pre)
    simp [updateBindings, hy,
      updateBindings_replace_first hx pre post (fun z hz => h z (List.mem_cons_of_mem y hz))]

theorem bindingMembers_updateBindings {b : Binding} : ∀ {bs : List Binding},
    bs.countP (fun y => y.role == b.role) ≤ 1 →
    bindingMembers (updateBindings b bs) b.role = b.members
  | [], _ => by simp [updateBindings, bindingMembers]
  | x :: bs, h => by
    by_cases hx : x.role == b.role
    · have h1 : bs.countP (fun y => y.role == b.role) + 1 ≤ 1 := by
        have h2 := h
        rw [List.countP_cons] at h2
        simpa [hx] using h2
      have hcnt : bs.countP (fun y => y.role == b.role) = 0 := by omega
      have hnil : bindingMembers bs b.role = [] := by
        refine bindingMembers_eq_nil ?_
        intro y hy
        have h3 := (List.countP_eq_zero.mp hcnt) y hy
        simpa using h3
      simp [updateBindings, hx, bindingMembers_cons, hnil]
    · have hrec : bs.countP (fun y => y.role == b.role) ≤ 1 := by
        have h2 := h
        rw [List.countP_cons] at h2
        omega
      simp [updateBindings, hx, bindingMembers_cons,
        bindingMembers_updateBindings hrec]

theorem mem_updateBindings_roles {b : Binding} {r : String} : ∀ {bs : List Binding},
    r ∈ (updateBindings b bs).map Binding.role → r = b.role ∨ r ∈ bs.map Binding.role
  | [], h => by
    rcases List.mem_map.mp h with ⟨y, hy, rfl⟩
    have hyb : y = b := by simpa [updateBindings] using hy
    exact Or.inl (by rw [hyb])
  | x :: bs, h => by
    rcases List.mem_map.mp h with ⟨y, hy, rfl⟩
    by_cases hx : x.role == b.role
    · rw [show updateBindings b (x :: bs) = b :: bs by simp [updateBindings, hx]] at hy
      rcases List.mem_cons.mp hy with rfl | hy
      · exact Or.inl rfl
      · exact Or.inr (List.mem_map.mpr ⟨y, List.mem_cons_of_mem x hy, rfl⟩)
    · rw [show updateBindings b (x :: bs) = x :: updateBindings b bs by
        simp [updateBindings, hx]] at hy
      rcases List.mem_cons.mp hy with rfl | hy
      · exact Or.inr (List.mem_map.mpr ⟨_, List.mem_cons_self _ _, rfl⟩)
      · rcases mem_updateBindings_roles (List.mem_map.mpr ⟨y, hy, rfl⟩) with h1 | h1
        · exact Or.inl h1
        · rcases List.mem_map.mp h1 with ⟨z, hz, hzr⟩
          exact Or.inr (List.mem_map.mpr ⟨z, List.mem_cons_of_mem x hz, hzr⟩)

theorem updateBindings_rolesNodup {b : Binding} : ∀ {bs : List Binding},
    rolesNodup bs → rolesNodup (updateBindings b bs)
  | [], _ => by simp [rolesNodup, updateBindings]
  | x :: bs, h => by
    rw [rolesNodup, List.map_cons, List.nodup_cons] at h
    by_cases hx : x.role == b.role
    · have hxr : x.role = b.role := by simpa using hx
      rw [rolesNodup, show updateBindings b (x :: bs) = b :: bs by simp [updateBindings, hx],
        List.map_cons, List.nodup_cons]
      exact ⟨hxr ▸ h.1, h.2⟩
    · rw [rolesNodup, show updateBindings b (x :: bs) = x :: updateBindings b bs by
        simp [updateBindings, hx], List.map_cons, List.nodup_cons]
      refine ⟨?_, updateBindings_rolesNodup h.2⟩
      intro hmem
      rcases mem_updateBindings_roles hmem with h1 | h1
      · exact absurd h1 (by simpa using hx)
      · exact h.1 h1

theorem deleteBindings_of_not_found {r : String} : ∀ {bs : List Binding},
    (∀ y ∈ bs, y.role ≠ r) → deleteBindings r bs = bs
  | [], _ => rfl
  | x :: bs, h => by
    have hx : (x.role == r) = false := by
      simpa using h x (List.mem_cons_self x bs)
    simp [deleteBindings, hx,
      deleteBindings_of_not_found (fun y hy => h y (List.mem_cons_of_mem x hy))]

theorem deleteBindings_remove_first {r : String} {x : Binding} (hx : x.role = r) :
    ∀ (pre post : List Binding), (∀ y ∈ pre, y.role ≠ r) →
      deleteBindings r (pre ++ x :: post) = pre ++ post
  | [], post, _ => by simp [deleteBindings, hx]
  | y :: pre, post, h => by
    have hy : (y.role == r) = false := by
      simpa using h y (List.mem_cons_self y pre)
    simp [deleteBindings, hy,
      deleteBindings_remove_first hx pre post (fun z hz => h z (List.mem_cons_of_mem y hz))]

theorem deleteBindings_sublist (r : String) : ∀ (bs : List Binding),
    (deleteBindings r bs).Sublist bs
  | [] => List.Sublist.refl []
  | x :: bs => by
    by_cases hx : x.role == r
    · simp only [deleteBindings, hx, if_true]
      exact List.sublist_cons_self x bs
    · simp only [deleteBindings, hx, if_false, Bool.false_eq_true]
      exact List.Sublist.cons₂ x (deleteBindings_sublist r bs)

theorem rmw_trace_cases {σ : Type} (u : Updater σ) (m : Policy → Except String Policy)
    (s : σ) :
    (iamPolicyReadModifyWrite u m s).2.2 = [UpdaterCall.fetch]
    ∨ ∃ q, (iamPolicyReadModifyWrite u m s).2.2
        = [UpdaterCall.fetch, UpdaterCall.commit q] := by
  rcases hf : u.fetchPolicy s with ⟨res, s1⟩
  rcases res with e | p
  · left
    simp [iamPolicyReadModifyWrite, hf]
  · rcases hm : m p with e | q
    · left
      simp [iamPolicyReadModifyWrite, hf, hm]
    · right
      exact ⟨q, by simp [iamPolicyReadModifyWrite, hf, hm]⟩

theorem rmw_countP_bounds {σ : Type} (u : Updater σ) (m : Policy → Except String Policy)
    (s : σ) :
    (iamPolicyReadModifyWrite u m s).2.2.countP UpdaterCall.isFetch = 1
    ∧ (iamPolicyReadModifyWrite u m s).2.2.countP UpdaterCall.isCommit ≤ 1 := by
  rcases rmw_trace_cases u m s with h | ⟨q, h⟩ <;> rw [h] <;>
    simp [List.countP_cons, UpdaterCall.isFetch, UpdaterCall.isCommit]

theorem read_trace {σ : Type} (u : Updater σ) (d : ResourceData) (s : σ) :
    (resourceIamBindingRead u d s).2.2 = [UpdaterCall.fetch] := by
  rcases hf : u.fetchPolicy s with ⟨res, s1⟩
  rcases res with e | p
  · simp [resourceIamBindingRead, hf]
  · rcases hb : p.bindings.find? (fun b => b.role == (getResourceIamBinding d).role)
      with _ | b <;> simp [resourceIamBindingRead, hf, hb]

theorem create_countP_bounds {σ : Type} (u : Updater σ) (d : ResourceData) (s : σ) :
    (resourceIamBindingCreate u d s).2.2.countP UpdaterCall.isFetch ≤ 2
    ∧ (resourceIamBindingCreate u d s).2.2.countP UpdaterCall.isCommit ≤ 1 := by
  have hr := rmw_countP_bounds u (createMutationFn (getResourceIamBinding d)) s
  rcases hrmw : iamPolicyReadModifyWrite u (createMutationFn (getResourceIamBinding d)) s
    with ⟨err, s1, tr⟩
  rw [hrmw] at hr
  simp only at hr
  rcases err with _ | e
  · rcases hread : resourceIamBindingRead u
      { d with id := u.resourceId ++ "/" ++ (getResourceIamBinding d).role } s1
      with ⟨res2, s2, tr2⟩
    have ht2 : tr2 = [UpdaterCall.fetch] := by
      have := read_trace u { d with id := u.resourceId ++ "/" ++ (getResourceIamBinding d).role } s1
      rw [hread] at this
      simpa using this
    simp [resourceIamBindingCreate, hrmw, hread, ht2, List.countP_append,
      List.countP_cons, UpdaterCall.isFetch, UpdaterCall.isCommit]
    omega
  · simp [resourceIamBindingCreate, hrmw]
    exact ⟨le_trans (le_of_eq hr.1) (by omega), hr.2⟩

theorem update_countP_bounds {σ : Type} (u : Updater σ) (d : ResourceData) (s : σ) :
    (resourceIamBindingUpdate u d s).2.2.countP UpdaterCall.isFetch ≤ 2
    ∧ (resourceIamBindingUpdate u d s).2.2.countP UpdaterCall.isCommit ≤ 1 := by
  have hr := rmw_countP_bounds u (updateMutationFn (getResourceIamBinding d)) s
  rcases hrmw : iamPolicyReadModifyWrite u (updateMutationFn (getResourceIamBinding d)) s
    with ⟨err, s1, tr⟩
  rw [hrmw] at hr
  simp only at hr
  rcases err with _ | e
  · rcases hread : resourceIamBindingRead u d s1 with ⟨res2, s2, tr2⟩
    have ht2 : tr2 = [UpdaterCall.fetch] := by
      have := read_trace u d s1
      rw [hread] at this
      simpa using this
    simp [resourceIamBindingUpdate, hrmw, hread, ht2, List.countP_append,
      List.countP_cons, UpdaterCall.isFetch, UpdaterCall.isCommit]
    omega
  · simp [resourceIamBindingUpdate, hrmw]
    exact ⟨le_trans (le_of_eq hr.1) (by omega), hr.2⟩

theorem delete_countP_bounds {σ : Type} (u : Updater σ) (d : ResourceData) (s : σ) :
    (resourceIamBindingDelete u d s).2.2.countP UpdaterCall.isFetch ≤ 2
    ∧ (resourceIamBindingDelete u d s).2.2.countP UpdaterCall.isCommit ≤ 1 := by
  have hr := rmw_countP_bounds u (deleteMutationFn (getResourceIamBinding d)) s
  rcases hrmw : iamPolicyReadModifyWrite u (deleteMutationFn (getResourceIamBinding d)) s
    with ⟨err, s1, tr⟩
  rw [hrmw] at hr
  simp only at hr
  rcases err with _ | e
  · rcases hread : resourceIamBindingRead u d s1 with ⟨res2, s2, tr2⟩
    have ht2 : tr2 = [UpdaterCall.fetch] := by
      have := read_trace u d s1
      rw [hread] at this
      simpa using this
    simp [resourceIamBindingDelete, hrmw, hread, ht2, List.countP_append,
      List.countP_cons, UpdaterCall.isFetch, UpdaterCall.isCommit]
    omega
  · simp [resourceIamBindingDelete, hrmw]
    exact ⟨le_trans (le_of_eq hr.1) (by omega), hr.2⟩

/-- Claim C5: the read-modify-write orchestrator attempts a commit if and
only if fetch and mutation both succeeded — a fetch error is propagated
with only a fetch call made, a mutation error is propagated with only a
fetch call made, and when both succeed the commit is called with the
mutated policy, which (for mutations that keep the etag field, as all of
this controller's mutations do) carries the originally fetched etag. -/
theorem rmw_commit_iff_fetch_and_mutation_ok {σ : Type} (u : Updater σ)
    (m : Policy → Except String Policy) (s : σ)
    (hpres : ∀ p q, m p = Except.ok q → q.etag = p.etag) :
    (∀ e s1, u.fetchPolicy s = (Except.error e, s1) →
      iamPolicyReadModifyWrite u m s = (some e, s1, [UpdaterCall.fetch]))
    ∧ (∀ p s1 e, u.fetchPolicy s = (Except.ok p, s1) → m p = Except.error e →
      iamPolicyReadModifyWrite u m s = (some e, s1, [UpdaterCall.fetch]))
    ∧ (∀ p s1 q, u.fetchPolicy s = (Except.ok p, s1) → m p = Except.ok q →
      iamPolicyReadModifyWrite u m s
        = ((u.commitPolicy s1 q).1, (u.commitPolicy s1 q).2,
            [UpdaterCall.fetch, UpdaterCall.commit q])
      ∧ q.etag = p.etag) := by
  refine ⟨?_, ?_, ?_⟩
  · intro e s1 hf
    simp [iamPolicyReadModifyWrite, hf]
  · intro p s1 e hf hm
    simp [iamPolicyReadModifyWrite, hf, hm]
  · intro p s1 q hf hm
    exact ⟨by simp [iamPolicyReadModifyWrite, hf, hm], hpres p q hm⟩

/-- Witness for C5: a concrete remote with one binding, the delete
mutation; fetch and mutation succeed, so the commit is called with the
mutated policy and the run returns the commit's outcome. -/
theorem rmw_commit_iff_fetch_and_mutation_ok_witness :
    iamPolicyReadModifyWrite (remoteUpdater "res") (deleteMutationFn ⟨"r", ["a"]⟩)
        (⟨"E", [⟨"r", ["x"]⟩]⟩ : Policy)
      = (none, ⟨"E", []⟩, [UpdaterCall.fetch, UpdaterCall.commit ⟨"E", []⟩]) := by
  have h := (rmw_commit_iff_fetch_and_mutation_ok (remoteUpdater "res")
      (deleteMutationFn ⟨"r", ["a"]⟩) (⟨"E", [⟨"r", ["x"]⟩]⟩ : Policy)
      (by intro p q hq; cases hq; rfl)).2.2
      ⟨"E", [⟨"r", ["x"]⟩]⟩ ⟨"E", [⟨"r", ["x"]⟩]⟩ ⟨"E", []⟩ rfl rfl
  exact h.1

/-- Claim C6: when the fetched policy has no binding entry with the
declared role, read clears the identity (sets it to the empty string) and
succeeds; absence is not surfaced as an error. -/
theorem read_absent_clears_identity {σ : Type} (u : Updater σ) (d : ResourceData)
    (s : σ) (p : Policy) (s1 : σ)
    (hfetch : u.fetchPolicy s = (Except.ok p, s1))
    (habs : ∀ b ∈ p.bindings, b.role ≠ d.role) :
    resourceIamBindingRead u d s
      = (Except.ok { d with id := "" }, s1, [UpdaterCall.fetch]) := by
  have hfind : p.bindings.find? (fun b => b.role == d.role) = none := by
    rw [List.find?_eq_none]
    intro b hb
    simpa using habs b hb
  simp [resourceIamBindingRead, getResourceIamBinding, hfetch, hfind]

/-- Witness for C6: a concrete policy holding only another role. -/
theorem read_absent_clears_identity_witness :
    resourceIamBindingRead (remoteUpdater "res") ⟨"r", ["a"], "", "res/r"⟩
        (⟨"E", [⟨"s", ["c"]⟩]⟩ : Policy)
      = (Except.ok ⟨"r", ["a"], "", ""⟩, ⟨"E", [⟨"s", ["c"]⟩]⟩, [UpdaterCall.fetch]) :=
  read_absent_clears_identity (remoteUpdater "res") ⟨"r", ["a"], "", "res/r"⟩
    (⟨"E", [⟨"s", ["c"]⟩]⟩ : Policy) ⟨"E", [⟨"s", ["c"]⟩]⟩ ⟨"E", [⟨"s", ["c"]⟩]⟩
    rfl (by decide)

/-- Claim C9: the create, update and delete mutation functions return nil
(`Except.ok`) on every input policy, so whenever the fetch succeeds the
read-modify-write cycle reaches the commit, whose call appears in the
trace with the mutated policy. -/
theorem mutation_functions_never_fail {σ : Type} (u : Updater σ) (b : Binding)
    (p : Policy) (s : σ) (q : Policy) (s1 : σ)
    (hfetch : u.fetchPolicy s = (Except.ok q, s1)) :
    createMutationFn b p = Except.ok (createMutation b p)
    ∧ updateMutationFn b p = Except.ok (updateMutation b p)
    ∧ deleteMutationFn b p = Except.ok (deleteMutation b p)
    ∧ (iamPolicyReadModifyWrite u (createMutationFn b) s).2.2
        = [UpdaterCall.fetch, UpdaterCall.commit (createMutation b q)]
    ∧ (iamPolicyReadModifyWrite u (updateMutationFn b) s).2.2
        = [UpdaterCall.fetch, UpdaterCall.commit (updateMutation b q)]
    ∧ (iamPolicyReadModifyWrite u (deleteMutationFn b) s).2.2
        = [UpdaterCall.fetch, UpdaterCall.commit (deleteMutation b q)] := by
  refine ⟨rfl, rfl, rfl, ?_, ?_, ?_⟩ <;>
    simp [iamPolicyReadModifyWrite, hfetch, createMutationFn, updateMutationFn,
      deleteMutationFn]

/-- Witness for C9 at a concrete updater, fetched policy and declared
binding. -/
theorem mutation_functions_never_fail_witness :
    createMutationFn ⟨"r", ["a"]⟩ ⟨"e", [⟨"s", ["w"]⟩]⟩
      = Except.ok (createMutation ⟨"r", ["a"]⟩ ⟨"e", [⟨"s", ["w"]⟩]⟩)
    ∧ updateMutationFn ⟨"r", ["a"]⟩ ⟨"e", [⟨"s", ["w"]⟩]⟩
      = Except.ok (updateMutation ⟨"r", ["a"]⟩ ⟨"e", [⟨"s", ["w"]⟩]⟩)
    ∧ deleteMutationFn ⟨"r", ["a"]⟩ ⟨"e", [⟨"s", ["w"]⟩]⟩
      = Except.ok (deleteMutation ⟨"r", ["a"]⟩ ⟨"e", [⟨"s", ["w"]⟩]⟩)
    ∧ (iamPolicyReadModifyWrite (remoteUpdater "res")
        (createMutationFn ⟨"r", ["a"]⟩) (⟨"E", []⟩ : Policy)).2.2
      = [UpdaterCall.fetch, UpdaterCall.commit (createMutation ⟨"r", ["a"]⟩ ⟨"E", []⟩)]
    ∧ (iamPolicyReadModifyWrite (remoteUpdater "res")
        (updateMutationFn ⟨"r", ["a"]⟩) (⟨"E", []⟩ : Policy)).2.2
      = [UpdaterCall.fetch, UpdaterCall.commit (updateMutation ⟨"r", ["a"]⟩ ⟨"E", []⟩)]
    ∧ (iamPolicyReadModifyWrite (remoteUpdater "res")
        (deleteMutationFn ⟨"r", ["a"]⟩) (⟨"E", []⟩ : Policy)).2.2
      = [UpdaterCall.fetch, UpdaterCall.commit (deleteMutation ⟨"r", ["a"]⟩ ⟨"E", []⟩)] :=
  mutation_functions_never_fail (remoteUpdater "res") ⟨"r", ["a"]⟩
    ⟨"e", [⟨"s", ["w"]⟩]⟩ (⟨"E", []⟩ : Policy) ⟨"E", []⟩ ⟨"E", []⟩ rfl

/-- Claim C8, as frozen, is false on the code: a concrete successful
create invocation makes two fetch calls against the updater, because
create re-runs read after its read-modify-write cycle and read fetches
again. -/
theorem create_two_fetches_counterexample :
    ((resourceIamBindingCreate (remoteUpdater "res") ⟨"r", ["a"], "", ""⟩
        (⟨"E", []⟩ : Policy)).2.2.countP UpdaterCall.isFetch) = 2 := by
  decide

/-- Claim C8 (amended: read makes exactly one fetch and no commit; create,
update and delete each make at most two fetches — one in the
read-modify-write cycle and one in the trailing read — and at most one
commit). -/
theorem operations_call_counts {σ : Type} (u : Updater σ) (d : ResourceData) (s : σ) :
    ((resourceIamBindingRead u d s).2.2.countP UpdaterCall.isFetch = 1
      ∧ (resourceIamBindingRead u d s).2.2.countP UpdaterCall.isCommit = 0)
    ∧ ((resourceIamBindingCreate u d s).2.2.countP UpdaterCall.isFetch ≤ 2
      ∧ (resourceIamBindingCreate u d s).2.2.countP UpdaterCall.isCommit ≤ 1)
    ∧ ((resourceIamBindingUpdate u d s).2.2.countP UpdaterCall.isFetch ≤ 2
      ∧ (resourceIamBindingUpdate u d s).2.2.countP UpdaterCall.isCommit ≤ 1)
    ∧ ((resourceIamBindingDelete u d s).2.2.countP UpdaterCall.isFetch ≤ 2
      ∧ (resourceIamBindingDelete u d s).2.2.countP UpdaterCall.isCommit ≤ 1) := by
  refine ⟨?_, create_countP_bounds u d s, update_countP_bounds u d s,
    delete_countP_bounds u d s⟩
  rw [read_trace u d s]
  simp [List.countP_cons, UpdaterCall.isFetch, UpdaterCall.isCommit]

theorem find?_map_roles (f : String → Binding) (hf : ∀ r, (f r).role = r) (R : String) :
    ∀ (l : List String), R ∈ l →
      (l.map f).find? (fun b => b.role == R) = some (f R)
  | [], h => absurd h (List.not_mem_nil R)
  | a :: l, h => by
    by_cases ha : a = R
    · subst ha
      rw [List.map_cons]
      exact List.find?_cons_of_pos _ (by simp [hf])
    · rw [List.map_cons, List.find?_cons_of_neg _ (by simp [hf, ha])]
      have hR : R ∈ l := by
        rcases List.mem_cons.mp h with h1 | h1
        · exact absurd h1.symm ha
        · exact h1
      exact find?_map_roles f hf R l hR

theorem find?_mergeBindings (bs : List Binding) (R : String)
    (hR : R ∈ bs.map Binding.role) :
    (mergeBindings bs).find? (fun b => b.role == R)
      = some ⟨R, (bindingMembers bs R).dedup⟩ := by
  rw [mergeBindings]
  exact find?_map_roles _ (fun r => rfl) R _ (List.mem_dedup.mpr hR)

/-- Claim C7, as frozen, is false on the code: with a fetched policy that
already holds member "c" for the declared role, a successful
create(role "r", members {"a","b"}) followed by the read it triggers
observes member set {"c","a","b"}, which is not the declared set
{"a","b"}. -/
theorem create_roundtrip_counterexample :
    (resourceIamBindingCreate (remoteUpdater "res") ⟨"r", ["a", "b"], "", ""⟩
        (⟨"E", [⟨"r", ["c"]⟩]⟩ : Policy)).1
      = Except.ok ⟨"r", ["c", "a", "b"], "E", "res/r"⟩
    ∧ "c" ∈ (["c", "a", "b"] : List String)
    ∧ "c" ∉ (["a", "b"] : List String) := by
  refine ⟨?_, by decide, by decide⟩
  rfl

/-- Claim C7 (amended: the policy fetched by create must contain no
binding entry with the declared role): against a faithful remote, create
followed by the read it triggers observes a member set equal to the
declared member set, the declared role, the etag of the policy the read
fetched (the policy create committed, which carries the fetched etag), and
identity `resourceId ++ "/" ++ role`. -/
theorem create_then_read_roundtrip (rid : String) (d : ResourceData) (s0 : Policy)
    (habs : ∀ b ∈ s0.bindings, b.role ≠ d.role) :
    resourceIamBindingCreate (remoteUpdater rid) d s0
      = (Except.ok ⟨d.role, d.members.dedup, s0.etag, rid ++ "/" ++ d.role⟩,
         createMutation (getResourceIamBinding d) s0,
         [UpdaterCall.fetch,
          UpdaterCall.commit (createMutation (getResourceIamBinding d) s0),
          UpdaterCall.fetch])
    ∧ (∀ m, m ∈ (d.members.dedup : List String) ↔ m ∈ d.members)
    ∧ (createMutation (getResourceIamBinding d) s0).etag = s0.etag := by
  refine ⟨?_, fun m => List.mem_dedup, rfl⟩
  have hmem : bindingMembers (s0.bindings ++ [(⟨d.role, d.members⟩ : Binding)]) d.role
      = d.members := by
    rw [bindingMembers_append, bindingMembers_eq_nil habs, List.nil_append]
    exact bindingMembers_singleton ⟨d.role, d.members⟩
  have hfind := find?_mergeBindings (s0.bindings ++ [⟨d.role, d.members⟩]) d.role
    (by rw [List.map_append]; exact List.mem_append_right _ (by simp))
  rw [hmem] at hfind
  simp [resourceIamBindingCreate, resourceIamBindingRead, iamPolicyReadModifyWrite,
    remoteUpdater, createMutationFn, createMutation, getResourceIamBinding, hfind]

/-- Witness for C7's amended theorem: a remote policy holding only another
role, declared binding role "r" with members {"a","b"}. -/
theorem create_then_read_roundtrip_witness :
    resourceIamBindingCreate (remoteUpdater "res") ⟨"r", ["a", "b"], "", ""⟩
        (⟨"E", [⟨"s", ["c"]⟩]⟩ : Policy)
      = (Except.ok ⟨"r", ["a", "b"].dedup, "E", "res" ++ "/" ++ "r"⟩,
         createMutation (getResourceIamBinding ⟨"r", ["a", "b"], "", ""⟩)
           ⟨"E", [⟨"s", ["c"]⟩]⟩,
         [UpdaterCall.fetch,
          UpdaterCall.commit (createMutation
            (getResourceIamBinding ⟨"r", ["a", "b"], "", ""⟩) ⟨"E", [⟨"s", ["c"]⟩]⟩),
          UpdaterCall.fetch])
    ∧ (∀ m, m ∈ (["a", "b"].dedup : List String) ↔ m ∈ (["a", "b"] : List String))
    ∧ (createMutation (getResourceIamBinding ⟨"r", ["a", "b"], "", ""⟩)
        ⟨"E", [⟨"s", ["c"]⟩]⟩).etag = "E" :=
  create_then_read_roundtrip "res" ⟨"r", ["a", "b"], "", ""⟩
    (⟨"E", [⟨"s", ["c"]⟩]⟩ : Policy) (by decide)

/-- Claim C1, as frozen, is false on the code: when the fetched policy
violates the one-entry-per-role precondition, the update mutation replaces
only the first entry with the declared role, so a later duplicate entry's
member `"y"` survives although it is not in the declared member set
`["z"]`; post-update membership for the role is not exactly the declared
set. -/
theorem update_membership_counterexample :
    updateMutation ⟨"r", ["z"]⟩ ⟨"e", [⟨"r", ["x"]⟩, ⟨"r", ["y"]⟩]⟩
      = ⟨"e", [⟨"r", ["z"]⟩, ⟨"r", ["y"]⟩]⟩
    ∧ "y" ∈ bindingMembers (updateMutation ⟨"r", ["z"]⟩
        ⟨"e", [⟨"r", ["x"]⟩, ⟨"r", ["y"]⟩]⟩).bindings "r"
    ∧ "y" ∉ (["z"] : List String) := by
  refine ⟨rfl, ?_, by decide⟩
  decide

/-- Claim C1 (amended: the fetched policy must contain at most one binding
entry with the declared role): the update mutation replaces the first
entry whose role equals the declared role wholesale with the declared
binding, appends the declared binding when no entry has that role, and
post-update membership for that role is exactly the declared member set. -/
theorem update_replaces_exactly (p : Policy) (b : Binding)
    (h : p.bindings.countP (fun y => y.role == b.role) ≤ 1) :
    bindingMembers (updateMutation b p).bindings b.role = b.members
    ∧ (∀ pre x post, p.bindings = pre ++ x :: post → x.role = b.role →
        (∀ y ∈ pre, y.role ≠ b.role) →
        (updateMutation b p).bindings = pre ++ b :: post)
    ∧ ((∀ x ∈ p.bindings, x.role ≠ b.role) →
        (updateMutation b p).bindings = p.bindings ++ [b]) := by
  refine ⟨bindingMembers_updateBindings h, ?_, ?_⟩
  · intro pre x post hsplit hx hpre
    rw [updateMutation]
    rw [hsplit]
    exact updateBindings_replace_first hx pre post hpre
  · intro habs
    rw [updateMutation]
    exact updateBindings_of_not_found habs

/-- Witness for C1's amended theorem at a concrete policy with one entry
for the declared role and one for another role. -/
theorem update_replaces_exactly_witness :
    bindingMembers (updateMutation ⟨"r", ["z"]⟩
      ⟨"e", [⟨"r", ["x"]⟩, ⟨"s", ["y"]⟩]⟩).bindings "r" = ["z"]
    ∧ (updateMutation ⟨"r", ["z"]⟩
        ⟨"e", [⟨"r", ["x"]⟩, ⟨"s", ["y"]⟩]⟩).bindings
      = [] ++ (⟨"r", ["z"]⟩ : Binding) :: [⟨"s", ["y"]⟩] := by
  have h := update_replaces_exactly ⟨"e", [⟨"r", ["x"]⟩, ⟨"s", ["y"]⟩]⟩ ⟨"r", ["z"]⟩ (by decide)
  exact ⟨h.1, h.2.1 [] ⟨"r", ["x"]⟩ [⟨"s", ["y"]⟩] rfl rfl (by decide)⟩

/-- Claim C2: the create mutation appends the declared binding and runs the
dedup/union merge, so post-create membership for the declared role contains
every member that was already present for that role and every declared
member — create never removes a member. -/
theorem create_union_superset (ep : Policy) (p : Binding) (m : String)
    (h : m ∈ bindingMembers ep.bindings p.role ∨ m ∈ p.members) :
    (createMutation p ep).bindings = mergeBindings (ep.bindings ++ [p])
    ∧ m ∈ bindingMembers (createMutation p ep).bindings p.role := by
  refine ⟨rfl, ?_⟩
  show m ∈ bindingMembers (mergeBindings (ep.bindings ++ [p])) p.role
  rw [mem_bindingMembers_mergeBindings, bindingMembers_append]
  rcases h with h | h
  · exact List.mem_append_left _ h
  · exact List.mem_append_right _ (by rw [bindingMembers_singleton]; exact h)

/-- Witness for C2 at a concrete policy: the pre-existing member `"x"` of
the declared role survives create. -/
theorem create_union_superset_witness :
    "x" ∈ bindingMembers (createMutation ⟨"viewer", ["y", "z"]⟩
      ⟨"e", [⟨"viewer", ["x", "y"]⟩]⟩).bindings "viewer" :=
  (create_union_superset ⟨"e", [⟨"viewer", ["x", "y"]⟩]⟩ ⟨"viewer", ["y", "z"]⟩ "x"
    (Or.inl (by decide))).2

/-- Claim C3: starting from a policy in which each role appears in at most
one binding entry, the mutation of each of create, update and delete
yields a binding list in which each role still appears in at most one
entry. -/
theorem mutations_preserve_role_uniqueness (p : Policy) (b : Binding)
    (h : rolesNodup p.bindings) :
    rolesNodup (createMutation b p).bindings
    ∧ rolesNodup (updateMutation b p).bindings
    ∧ rolesNodup (deleteMutation b p).bindings := by
  refine ⟨?_, ?_, ?_⟩
  · show rolesNodup (mergeBindings (p.bindings ++ [b]))
    rw [rolesNodup, mergeBindings_roles]
    exact List.nodup_dedup _
  · exact updateBindings_rolesNodup h
  · show rolesNodup (deleteBindings b.role p.bindings)
    rw [rolesNodup]
    exact ((deleteBindings_sublist b.role p.bindings).map Binding.role).nodup h

/-- Witness for C3 at a concrete two-role policy. -/
theorem mutations_preserve_role_uniqueness_witness :
    rolesNodup (createMutation ⟨"r", ["a"]⟩ ⟨"e", [⟨"r", ["x"]⟩, ⟨"s", ["y"]⟩]⟩).bindings
    ∧ rolesNodup (updateMutation ⟨"r", ["a"]⟩ ⟨"e", [⟨"r", ["x"]⟩, ⟨"s", ["y"]⟩]⟩).bindings
    ∧ rolesNodup (deleteMutation ⟨"r", ["a"]⟩ ⟨"e", [⟨"r", ["x"]⟩, ⟨"s", ["y"]⟩]⟩).bindings :=
  mutations_preserve_role_uniqueness ⟨"e", [⟨"r", ["x"]⟩, ⟨"s", ["y"]⟩]⟩ ⟨"r", ["a"]⟩
    (by rw [rolesNodup]; decide)

/-- Claim C4: when the fetched policy has no binding entry with the
declared role, the delete mutation returns the policy unchanged with no
error, and doing it a second time again yields the same policy and no
error. -/
theorem delete_absent_silent_noop (p : Policy) (b : Binding)
    (h : ∀ x ∈ p.bindings, x.role ≠ b.role) :
    deleteMutationFn b p = Except.ok p
    ∧ deleteMutationFn b (deleteMutation b p) = Except.ok p := by
  have hb : deleteBindings b.role p.bindings = p.bindings := deleteBindings_of_not_found h
  have hp : deleteMutation b p = p := by
    show { p with bindings := deleteBindings b.role p.bindings } = p
    rw [hb]
  constructor
  · rw [deleteMutationFn, hp]
  · rw [deleteMutationFn, hp, hp]

/-- Witness for C4 at a concrete policy without the declared role. -/
theorem delete_absent_silent_noop_witness :
    deleteMutationFn ⟨"editor", ["a"]⟩ ⟨"e", [⟨"viewer", ["x"]⟩]⟩
      = Except.ok ⟨"e", [⟨"viewer", ["x"]⟩]⟩
    ∧ deleteMutationFn ⟨"editor", ["a"]⟩
        (deleteMutation ⟨"editor", ["a"]⟩ ⟨"e", [⟨"viewer", ["x"]⟩]⟩)
      = Except.ok ⟨"e", [⟨"viewer", ["x"]⟩]⟩ :=
  delete_absent_silent_noop ⟨"e", [⟨"viewer", ["x"]⟩]⟩ ⟨"editor", ["a"]⟩ (by decide)

/-- Claim C10: when the fetched policy has several entries with the
declared role, the delete mutation removes only the first one in sequence
order; every later entry, duplicates of the role included, remains in the
resulting policy. -/
theorem delete_removes_only_first_duplicate (p : Policy) (b : Binding)
    (pre post : List Binding) (x : Binding)
    (hsplit : p.bindings = pre ++ x :: post) (hx : x.role = b.role)
    (hpre : ∀ y ∈ pre, y.role ≠ b.role) :
    deleteMutationFn b p = Except.ok { p with bindings := pre ++ post }
    ∧ ∀ y ∈ post, y ∈ (deleteMutation b p).bindings := by
  have hd : deleteBindings b.role p.bindings = pre ++ post := by
    rw [hsplit]
    exact deleteBindings_remove_first hx pre post hpre
  constructor
  · rw [deleteMutationFn, deleteMutation, hd]
  · intro y hy
    show y ∈ deleteBindings b.role p.bindings
    rw [hd]
    exact List.mem_append_right _ hy

/-- Witness for C10 at a concrete policy with two entries for the declared
role: only the first is removed, the duplicate remains. -/
theorem delete_removes_only_first_duplicate_witness :
    deleteMutationFn ⟨"r", ["a"]⟩ ⟨"e", [⟨"s", ["w"]⟩, ⟨"r", ["x"]⟩, ⟨"r", ["y"]⟩]⟩
      = Except.ok ⟨"e", [⟨"s", ["w"]⟩] ++ [⟨"r", ["y"]⟩]⟩
    ∧ ∀ y ∈ [(⟨"r", ["y"]⟩ : Binding)],
        y ∈ (deleteMutation ⟨"r", ["a"]⟩
          ⟨"e", [⟨"s", ["w"]⟩, ⟨"r", ["x"]⟩, ⟨"r", ["y"]⟩]⟩).bindings :=
  delete_removes_only_first_duplicate
    ⟨"e", [⟨"s", ["w"]⟩, ⟨"r", ["x"]⟩, ⟨"r", ["y"]⟩]⟩ ⟨"r", ["a"]⟩
    [⟨"s", ["w"]⟩] [⟨"r", ["y"]⟩] ⟨"r", ["x"]⟩ rfl rfl (by decide)

end IamBinding
